import Mathlib

/-!
# Verification of the dhcproto DHCP/BOOTP message codec

A shallow embedding of `src/libs/proto/src/msg/mod.rs` (the `Message`
aggregate with its `Decodable`/`Encodable` implementations) together with
the collaborating byte cursor, scalar codecs and options TLV codec, which
are modelled from the specification because their source files are not
part of the given sources.

Bytes are modelled as `Nat` (with the usual `< 256` side conditions where
they matter); a buffer is a `List Nat`.  A fallible read returns
`Option (value, remainingBuffer)`; a fallible encode returns
`Option (List Nat)`.  Rust `String` values are modelled as their byte
lists; `Ipv4Addr`, `Flags` and `HType` are modelled by the raw integers
they are bijective with (the spec states `from`/`into` are inverse, bit
and byte preserving, for all three).
-/

set_option maxRecDepth 100000

namespace Dhcproto

/-- Modelled from the spec: `opcode` is a closed enumeration
{BootRequest=1, BootReply=2}; the `opcode` submodule is not in the given
sources. -/
inductive Opcode where
  | BootRequest
  | BootReply
deriving DecidableEq, Repr

/-- Modelled from the spec: byte-cursor bounds-checked 8-bit read
(`Decoder::read_u8`); the decoder source file is not given. -/
def read_u8 : List Nat → Option (Nat × List Nat)
  | [] => none
  | b :: r => some (b, r)

/-- Modelled from the spec: byte-cursor big-endian bounds-checked 16-bit
read (`Decoder::read_u16`). -/
def read_u16 : List Nat → Option (Nat × List Nat)
  | b0 :: b1 :: r => some (b0 * 256 + b1, r)
  | _ => none

/-- Modelled from the spec: byte-cursor big-endian bounds-checked 32-bit
read (`Decoder::read_u32`). -/
def read_u32 : List Nat → Option (Nat × List Nat)
  | b0 :: b1 :: b2 :: b3 :: r =>
    some (((b0 * 256 + b1) * 256 + b2) * 256 + b3, r)
  | _ => none

/-- Modelled from the spec: byte-cursor fixed-size array read
(`Decoder::read::<N>`), bounds checked. -/
def readN : Nat → List Nat → Option (List Nat × List Nat)
  | 0, l => some ([], l)
  | _ + 1, [] => none
  | n + 1, b :: r =>
    match readN n r with
    | none => none
    | some (bs, rest) => some (b :: bs, rest)

/-- Modelled from the spec (Padded String Codec): the bytes of a
fixed-width string field up to (excluding) the first null byte. -/
def takeUntilNul : List Nat → List Nat
  | [] => []
  | b :: r => if b = 0 then [] else b :: takeUntilNul r

/-- Modelled from the spec (Padded String Codec): interpret a fixed-width
field as an optional string; an empty prefix (first byte null, or empty
field) decodes to absent. -/
def strOf (bs : List Nat) : Option (List Nat) :=
  if takeUntilNul bs = [] then none else some (takeUntilNul bs)

/-- Modelled from the spec: byte-cursor fixed-width null-padded string
read (`Decoder::read_const_string::<W>`), bounds checked. -/
def read_const_string (w : Nat) (l : List Nat) :
    Option (Option (List Nat) × List Nat) :=
  match readN w l with
  | none => none
  | some (bs, r) => some (strOf bs, r)

/-- Modelled from the spec: `Opcode::decode` reads one byte; 1 is
BootRequest, 2 is BootReply, anything else is a decode error. -/
def Opcode.decode (l : List Nat) : Option (Opcode × List Nat) :=
  match read_u8 l with
  | none => none
  | some (b, r) =>
    if b = 1 then some (.BootRequest, r)
    else if b = 2 then some (.BootReply, r)
    else none

/-- Modelled from the spec: the wire byte of an `Opcode`
(`Opcode::encode` writes it). -/
def Opcode.toU8 : Opcode → Nat
  | .BootRequest => 1
  | .BootReply => 2

/-- The ordered options collection: an insertion-ordered list of
(option code, raw value bytes) entries.  Modelled from the spec: unknown
and known codes alike keep their raw value bytes, which suffices for the
structural properties verified here. -/
abbrev DhcpOptions := List (Nat × List Nat)

/-- Modelled from the spec (Options TLV engine), with explicit fuel to
make the scan structurally recursive; the fuel is always instantiated
with the buffer length, which the scan never exceeds since every step
consumes at least one byte.
In state Scanning: end of buffer terminates successfully; code 0 (PAD)
is skipped; code 255 (END) terminates successfully; any other code is
followed by a length byte and exactly that many value bytes (a short
read is a fatal truncation error). -/
def decodeOptsF : Nat → List Nat → Option DhcpOptions
  | _, [] => some []
  | 0, _ :: _ => none
  | f + 1, c :: r =>
    if c = 0 then decodeOptsF f r
    else if c = 255 then some []
    else
      match read_u8 r with
      | none => none
      | some (n, r1) =>
        match readN n r1 with
        | none => none
        | some (v, r2) =>
          match decodeOptsF f r2 with
          | none => none
          | some rest => some ((c, v) :: rest)

/-- Modelled from the spec: `DhcpOptions::decode` scans the whole
remaining buffer (see `decodeOptsF`). -/
def DhcpOptions.decode (l : List Nat) : Option DhcpOptions :=
  decodeOptsF l.length l

/-- Modelled from the spec: byte-cursor 8-bit write (`Encoder::write_u8`);
the `% 256` reflects the Rust `u8` argument type. -/
def write_u8 (v : Nat) : List Nat := [v % 256]

/-- Modelled from the spec: byte-cursor big-endian 16-bit write
(`Encoder::write_u16`). -/
def write_u16 (v : Nat) : List Nat := [v / 256 % 256, v % 256]

/-- Modelled from the spec: byte-cursor big-endian 32-bit write
(`Encoder::write_u32`). -/
def write_u32 (v : Nat) : List Nat :=
  [v / 16777216 % 256, v / 65536 % 256, v / 256 % 256, v % 256]

/-- Modelled from the spec: byte-cursor fixed-width null-padded string
write (`Encoder::write_fill_string`): absent writes `w` zero bytes, a
present string writes its bytes zero-filled to width `w`, failing when the
text alone does not fit. -/
def write_fill_string : Option (List Nat) → Nat → Option (List Nat)
  | none, w => some (List.replicate w 0)
  | some s, w =>
    if s.length ≤ w then some (s ++ List.replicate (w - s.length) 0)
    else none

/-- Modelled from the spec: encode each option entry in stored order as
code byte, length byte, value bytes; fails when a value exceeds 255
bytes (it cannot be described by the one length byte). -/
def encodeOptsEntries : DhcpOptions → Option (List Nat)
  | [] => some []
  | (c, v) :: rest =>
    if v.length ≤ 255 then
      match encodeOptsEntries rest with
      | none => none
      | some t => some (c % 256 :: v.length :: (v ++ t))
    else none

/-- Modelled from the spec and the `decode_bootreq` test in
`src/libs/proto/src/msg/mod.rs`: `DhcpOptions::encode` writes nothing at
all for an empty collection (the test asserts the 240-byte END-less
vector re-encodes byte-identically), and otherwise writes the entries in
stored order followed by one END byte (255), with no trailing PAD
bytes. -/
def DhcpOptions.encode (opts : DhcpOptions) : Option (List Nat) :=
  match opts with
  | [] => some []
  | _ =>
    match encodeOptsEntries opts with
    | none => none
    | some body => some (body ++ [255])

/-- The `Message` struct of `src/libs/proto/src/msg/mod.rs`.  `htype`,
`flags` and the four addresses are stored as the raw integers they are
bijective with; `sname`/`file` strings are stored as byte lists. -/
structure Message where
  opcode : Opcode
  htype : Nat
  hlen : Nat
  hops : Nat
  xid : Nat
  secs : Nat
  flags : Nat
  ciaddr : Nat
  yiaddr : Nat
  siaddr : Nat
  giaddr : Nat
  chaddr : List Nat
  sname : Option (List Nat)
  file : Option (List Nat)
  magic : List Nat
  opts : DhcpOptions
deriving DecidableEq, Repr

/-- `Message::decode` from `src/libs/proto/src/msg/mod.rs`: the fixed
header fields in strict order, then the magic cookie read verbatim, then
the options section. -/
def Message.decode (l : List Nat) : Option Message :=
  match Opcode.decode l with
  | none => none
  | some (opcode, l) =>
  match read_u8 l with
  | none => none
  | some (htype, l) =>
  match read_u8 l with
  | none => none
  | some (hlen, l) =>
  match read_u8 l with
  | none => none
  | some (hops, l) =>
  match read_u32 l with
  | none => none
  | some (xid, l) =>
  match read_u16 l with
  | none => none
  | some (secs, l) =>
  match read_u16 l with
  | none => none
  | some (flags, l) =>
  match read_u32 l with
  | none => none
  | some (ciaddr, l) =>
  match read_u32 l with
  | none => none
  | some (yiaddr, l) =>
  match read_u32 l with
  | none => none
  | some (siaddr, l) =>
  match read_u32 l with
  | none => none
  | some (giaddr, l) =>
  match readN 16 l with
  | none => none
  | some (chaddr, l) =>
  match read_const_string 64 l with
  | none => none
  | some (sname, l) =>
  match read_const_string 128 l with
  | none => none
  | some (file, l) =>
  match readN 4 l with
  | none => none
  | some (magic, l) =>
  match DhcpOptions.decode l with
  | none => none
  | some opts =>
    some { opcode, htype, hlen, hops, xid, secs, flags,
           ciaddr, yiaddr, siaddr, giaddr, chaddr, sname, file,
           magic, opts }

/-- `Message::encode` from `src/libs/proto/src/msg/mod.rs`: the header
fields in the same order, `chaddr` and `magic` written verbatim,
`sname`/`file` zero-filled to 64/128 bytes, then the options section. -/
def Message.encode (m : Message) : Option (List Nat) :=
  match write_fill_string m.sname 64 with
  | none => none
  | some sn =>
  match write_fill_string m.file 128 with
  | none => none
  | some fl =>
  match DhcpOptions.encode m.opts with
  | none => none
  | some ob =>
    some ([m.opcode.toU8] ++ write_u8 m.htype ++ write_u8 m.hlen
      ++ write_u8 m.hops ++ write_u32 m.xid ++ write_u16 m.secs
      ++ write_u16 m.flags ++ write_u32 m.ciaddr ++ write_u32 m.yiaddr
      ++ write_u32 m.siaddr ++ write_u32 m.giaddr ++ m.chaddr
      ++ sn ++ fl ++ m.magic ++ ob)

/-- Big-endian value of two bytes. -/
def be16 (a b : Nat) : Nat := a * 256 + b

/-- Big-endian value of four bytes. -/
def be32 (a b c d : Nat) : Nat := ((a * 256 + b) * 256 + c) * 256 + d

/-- The sname text bytes of the test vector `dhcp_bootreq` (values 45 to 107). -/
def bootreqSname : List Nat :=
  [45, 46, 47, 48, 49, 50, 51, 52, 53, 54, 55, 56, 57, 58, 59, 60, 61, 62,
   63, 64, 65, 66, 67, 68, 69, 70, 71, 72, 73, 74, 75, 76, 77, 78, 79, 80,
   81, 82, 83, 84, 85, 86, 87, 88, 89, 90, 91, 92, 93, 94, 95, 96, 97, 98,
   99, 100, 101, 102, 103, 104, 105, 106, 107]

/-- The file text bytes of the test vector `dhcp_bootreq` (120 bytes). -/
def bootreqFile : List Nat :=
  [109, 110, 111, 112, 113, 114, 115, 116, 117, 118, 119, 120, 121, 122,
   123, 124, 125, 109, 110, 111, 112, 113, 114, 115, 116, 117, 118, 119,
   120, 121, 122, 123, 124, 125, 109, 110, 111, 112, 113, 114, 115, 116,
   117, 118, 119, 120, 121, 122, 123, 124, 125, 109, 110, 111, 112, 113,
   114, 115, 116, 117, 118, 119, 120, 121, 122, 123, 124, 125, 109, 110,
   111, 112, 113, 114, 115, 116, 117, 118, 119, 120, 121, 122, 123, 124,
   125, 109, 110, 111, 112, 113, 114, 115, 116, 117, 118, 119, 120, 121,
   122, 123, 124, 125, 109, 110, 111, 112, 113, 114, 115, 116, 117, 118,
   119, 120, 121, 122, 123, 124, 125, 109]

/-- Bytes 8 onward of the test vector `dhcp_bootreq` of `src/libs/proto/src/msg/mod.rs`. -/
def bootreqTail : List Nat :=
  [9, 10, 11, 12, 13, 14, 15, 16, 17, 18, 19, 20, 21, 22, 23, 24, 25, 26,
   27, 28, 29, 30, 31, 32, 33, 34, 35, 36, 37, 38, 39, 40, 41, 42, 43, 44,
   45, 46, 47, 48, 49, 50, 51, 52, 53, 54, 55, 56, 57, 58, 59, 60, 61, 62,
   63, 64, 65, 66, 67, 68, 69, 70, 71, 72, 73, 74, 75, 76, 77, 78, 79, 80,
   81, 82, 83, 84, 85, 86, 87, 88, 89, 90, 91, 92, 93, 94, 95, 96, 97, 98,
   99, 100, 101, 102, 103, 104, 105, 106, 107, 0, 109, 110, 111, 112, 113,
   114, 115, 116, 117, 118, 119, 120, 121, 122, 123, 124, 125, 109, 110,
   111, 112, 113, 114, 115, 116, 117, 118, 119, 120, 121, 122, 123, 124,
   125, 109, 110, 111, 112, 113, 114, 115, 116, 117, 118, 119, 120, 121,
   122, 123, 124, 125, 109, 110, 111, 112, 113, 114, 115, 116, 117, 118,
   119, 120, 121, 122, 123, 124, 125, 109, 110, 111, 112, 113, 114, 115,
   116, 117, 118, 119, 120, 121, 122, 123, 124, 125, 109, 110, 111, 112,
   113, 114, 115, 116, 117, 118, 119, 120, 121, 122, 123, 124, 125, 109,
   110, 111, 112, 113, 114, 115, 116, 117, 118, 119, 120, 121, 122, 123,
   124, 125, 109, 0, 0, 0, 0, 0, 0, 0, 0, 99, 130, 83, 99]

/-- The 240-byte test vector `dhcp_bootreq` of
`src/libs/proto/src/msg/mod.rs`. -/
def bootreqBytes : List Nat :=
  1 :: 2 :: 3 :: 4 :: 5 :: 6 :: 7 :: 8 :: bootreqTail

/-- The Message value that `dhcp_bootreq` decodes to. -/
def msgBR : Message :=
  { opcode := .BootRequest
    htype := 2
    hlen := 3
    hops := 4
    xid := be32 5 6 7 8
    secs := be16 9 10
    flags := be16 11 12
    ciaddr := be32 13 14 15 16
    yiaddr := be32 17 18 19 20
    siaddr := be32 21 22 23 24
    giaddr := be32 25 26 27 28
    chaddr := [29, 30, 31, 32, 33, 34, 35, 36, 37, 38, 39, 40, 41, 42, 43, 44]
    sname := some bootreqSname
    file := some bootreqFile
    magic := [99, 130, 83, 99]
    opts := [] }

/-- The all-zero-fields Message that a 240-byte buffer of one 1 followed
by 239 zero bytes decodes to. -/
def msgZ : Message :=
  { opcode := .BootRequest
    htype := 0
    hlen := 0
    hops := 0
    xid := 0
    secs := 0
    flags := 0
    ciaddr := 0
    yiaddr := 0
    siaddr := 0
    giaddr := 0
    chaddr := List.replicate 16 0
    sname := none
    file := none
    magic := List.replicate 4 0
    opts := [] }

/-- The header fields a buffer decodes to, by byte position. -/
def msgOf (l : List Nat) (opts : DhcpOptions) : Message :=
  { opcode := if l.getD 0 0 = 1 then .BootRequest else .BootReply
    htype := l.getD 1 0
    hlen := l.getD 2 0
    hops := l.getD 3 0
    xid := be32 (l.getD 4 0) (l.getD 5 0) (l.getD 6 0) (l.getD 7 0)
    secs := be16 (l.getD 8 0) (l.getD 9 0)
    flags := be16 (l.getD 10 0) (l.getD 11 0)
    ciaddr := be32 (l.getD 12 0) (l.getD 13 0) (l.getD 14 0) (l.getD 15 0)
    yiaddr := be32 (l.getD 16 0) (l.getD 17 0) (l.getD 18 0) (l.getD 19 0)
    siaddr := be32 (l.getD 20 0) (l.getD 21 0) (l.getD 22 0) (l.getD 23 0)
    giaddr := be32 (l.getD 24 0) (l.getD 25 0) (l.getD 26 0) (l.getD 27 0)
    chaddr := (l.drop 28).take 16
    sname := strOf ((l.drop 44).take 64)
    file := strOf ((l.drop 108).take 128)
    magic := (l.drop 236).take 4
    opts := opts }

/-- Modelled from the source accessor `Message::opts_mut`
(`src/libs/proto/src/msg/mod.rs` lines 159-161): the effect of writing a
new collection through the returned mutable reference is to replace
`opts`, and nothing else. -/
def Message.opts_mut (m : Message) (o : DhcpOptions) : Message :=
  { m with opts := o }

/-- The wire bytes of one option entry as the spec words it: code byte,
length byte, value bytes. -/
def optsEntryBytes (p : Nat × List Nat) : List Nat :=
  p.1 % 256 :: p.2.length :: p.2

/-- The wire bytes of a list of option entries, concatenated in stored
order. -/
def optsEntriesBytes : DhcpOptions → List Nat
  | [] => []
  | p :: rest => optsEntryBytes p ++ optsEntriesBytes rest

/-- Wire well-formedness of an options collection: entry codes are real
option codes (neither PAD nor END, and they fit one byte) and every value
fits the one-byte length field.  Every decoded collection satisfies this,
and it is exactly what re-encoding needs. -/
def OptsWF (opts : DhcpOptions) : Prop :=
  ∀ p ∈ opts, p.1 ≠ 0 ∧ p.1 ≠ 255 ∧ p.1 < 256 ∧ p.2.length ≤ 255

/-- Wire well-formedness of an optional fixed-width string field: absent,
or a nonempty null-free text that fits the width. -/
def strFieldWF (os : Option (List Nat)) (w : Nat) : Prop :=
  match os with
  | none => True
  | some s => s ≠ [] ∧ (∀ x ∈ s, x ≠ 0) ∧ s.length ≤ w

/-- Wire well-formedness of a Message: every field fits its wire slot.
Every decoded Message satisfies this, and it is exactly what re-encoding
needs. -/
def Message.wf (m : Message) : Prop :=
  m.htype < 256 ∧ m.hlen < 256 ∧ m.hops < 256 ∧ m.xid < 4294967296 ∧
    m.secs < 65536 ∧ m.flags < 65536 ∧ m.ciaddr < 4294967296 ∧
    m.yiaddr < 4294967296 ∧ m.siaddr < 4294967296 ∧
    m.giaddr < 4294967296 ∧ m.chaddr.length = 16 ∧
    strFieldWF m.sname 64 ∧ strFieldWF m.file 128 ∧
    m.magic.length = 4 ∧ OptsWF m.opts

/-- The eleven scalar header writes of `Message::encode`, in source
order (opcode through giaddr); 28 bytes. -/
def headerBytes (m : Message) : List Nat :=
  [m.opcode.toU8] ++ write_u8 m.htype ++ write_u8 m.hlen ++ write_u8 m.hops
    ++ write_u32 m.xid ++ write_u16 m.secs ++ write_u16 m.flags
    ++ write_u32 m.ciaddr ++ write_u32 m.yiaddr ++ write_u32 m.siaddr
    ++ write_u32 m.giaddr

/- ## Reader lemmas -/

theorem read_u8_eq_some {l : List Nat} {v : Nat} {r : List Nat}
    (h : read_u8 l = some (v, r)) :
    1 ≤ l.length ∧ v = l.getD 0 0 ∧ r = l.drop 1 := by
  cases l with
  | nil => simp [read_u8] at h
  | cons b t =>
    simp only [read_u8, Option.some.injEq, Prod.mk.injEq] at h
    simp [← h.1, ← h.2]

theorem read_u8_of_le {l : List Nat} (h : 1 ≤ l.length) :
    read_u8 l = some (l.getD 0 0, l.drop 1) := by
  cases l with
  | nil => simp at h
  | cons b t => simp [read_u8]

theorem read_u16_eq_some {l : List Nat} {v : Nat} {r : List Nat}
    (h : read_u16 l = some (v, r)) :
    2 ≤ l.length ∧ v = be16 (l.getD 0 0) (l.getD 1 0) ∧ r = l.drop 2 := by
  match l with
  | [] => simp [read_u16] at h
  | [b0] => simp [read_u16] at h
  | b0 :: b1 :: t =>
    simp only [read_u16, Option.some.injEq, Prod.mk.injEq] at h
    refine ⟨by simp, ?_, by simp [← h.2]⟩
    simp [be16, ← h.1]

theorem read_u16_of_le {l : List Nat} (h : 2 ≤ l.length) :
    read_u16 l = some (be16 (l.getD 0 0) (l.getD 1 0), l.drop 2) := by
  match l with
  | [] => simp at h
  | [b0] => simp at h
  | b0 :: b1 :: t => simp [read_u16, be16]

theorem read_u32_eq_some {l : List Nat} {v : Nat} {r : List Nat}
    (h : read_u32 l = some (v, r)) :
    4 ≤ l.length ∧
      v = be32 (l.getD 0 0) (l.getD 1 0) (l.getD 2 0) (l.getD 3 0) ∧
      r = l.drop 4 := by
  match l with
  | [] => simp [read_u32] at h
  | [b0] => simp [read_u32] at h
  | [b0, b1] => simp [read_u32] at h
  | [b0, b1, b2] => simp [read_u32] at h
  | b0 :: b1 :: b2 :: b3 :: t =>
    simp only [read_u32, Option.some.injEq, Prod.mk.injEq] at h
    refine ⟨by simp, ?_, by simp [← h.2]⟩
    simp [be32, ← h.1]

theorem read_u32_of_le {l : List Nat} (h : 4 ≤ l.length) :
    read_u32 l =
      some (be32 (l.getD 0 0) (l.getD 1 0) (l.getD 2 0) (l.getD 3 0),
        l.drop 4) := by
  match l with
  | [] => simp at h
  | [b0] => simp at h
  | [b0, b1] => simp at h
  | [b0, b1, b2] => simp at h
  | b0 :: b1 :: b2 :: b3 :: t => simp [read_u32, be32]

theorem readN_eq_some :
    ∀ {n : Nat} {l bs r : List Nat}, readN n l = some (bs, r) →
      n ≤ l.length ∧ bs = l.take n ∧ r = l.drop n := by
  intro n
  induction n with
  | zero =>
    intro l bs r h
    simp only [readN, Option.some.injEq, Prod.mk.injEq] at h
    simp [← h.1, ← h.2]
  | succ k ih =>
    intro l bs r h
    cases l with
    | nil => simp [readN] at h
    | cons b t =>
      simp only [readN] at h
      cases hk : readN k t with
      | none => rw [hk] at h; simp at h
      | some p =>
        obtain ⟨bs0, r0⟩ := p
        rw [hk] at h
        simp only [Option.some.injEq, Prod.mk.injEq] at h
        obtain ⟨hlen, hbs, hr⟩ := ih hk
        refine ⟨by simp; omega, ?_, ?_⟩
        · simp [← h.1, hbs]
        · simp [← h.2, hr]

theorem readN_of_le {n : Nat} {l : List Nat} (h : n ≤ l.length) :
    readN n l = some (l.take n, l.drop n) := by
  induction n generalizing l with
  | zero => simp [readN]
  | succ k ih =>
    cases l with
    | nil => simp at h
    | cons b t =>
      have ht : k ≤ t.length := by simp at h; omega
      simp [readN, ih ht]

theorem read_const_string_eq_some {w : Nat} {l : List Nat}
    {s : Option (List Nat)} {r : List Nat}
    (h : read_const_string w l = some (s, r)) :
    w ≤ l.length ∧ s = strOf (l.take w) ∧ r = l.drop w := by
  unfold read_const_string at h
  cases hN : readN w l with
  | none => rw [hN] at h; simp at h
  | some p =>
    obtain ⟨bs, r0⟩ := p
    rw [hN] at h
    simp only [Option.some.injEq, Prod.mk.injEq] at h
    obtain ⟨hlen, hbs, hr⟩ := readN_eq_some hN
    exact ⟨hlen, by rw [← h.1, hbs], by rw [← h.2, hr]⟩

theorem read_const_string_of_le {w : Nat} {l : List Nat}
    (h : w ≤ l.length) :
    read_const_string w l = some (strOf (l.take w), l.drop w) := by
  unfold read_const_string
  rw [readN_of_le h]

theorem Opcode.decode_some_inv {l : List Nat} {oc : Opcode} {r : List Nat}
    (h : Opcode.decode l = some (oc, r)) :
    1 ≤ l.length ∧ (l.getD 0 0 = 1 ∨ l.getD 0 0 = 2) ∧
      oc = (if l.getD 0 0 = 1 then .BootRequest else .BootReply) ∧
      r = l.drop 1 := by
  unfold Opcode.decode at h
  cases l with
  | nil => simp [read_u8] at h
  | cons b t =>
    simp only [read_u8] at h
    split at h
    next hb =>
      subst hb
      simp only [Option.some.injEq, Prod.mk.injEq] at h
      obtain ⟨h1, h2⟩ := h
      subst h1
      subst h2
      simp
    next hb =>
      split at h
      next hb2 =>
        subst hb2
        simp only [Option.some.injEq, Prod.mk.injEq] at h
        obtain ⟨h1, h2⟩ := h
        subst h1
        subst h2
        simp [hb]
      next => simp at h

theorem Opcode.decode_some_of {l : List Nat} (h : 1 ≤ l.length)
    (hv : l.getD 0 0 = 1 ∨ l.getD 0 0 = 2) :
    Opcode.decode l =
      some (if l.getD 0 0 = 1 then .BootRequest else .BootReply,
        l.drop 1) := by
  unfold Opcode.decode
  cases l with
  | nil => simp at h
  | cons b t =>
    simp only [List.getD_cons_zero] at hv ⊢
    rcases hv with hv | hv <;> subst hv <;> simp [read_u8]

theorem Opcode.decode_none {l : List Nat} (h1 : l.getD 0 0 ≠ 1)
    (h2 : l.getD 0 0 ≠ 2) : Opcode.decode l = none := by
  unfold Opcode.decode
  cases l with
  | nil => simp [read_u8]
  | cons b t =>
    simp only [List.getD_cons_zero] at h1 h2
    simp [read_u8, h1, h2]


/- ## Decode characterization -/

theorem getD_drop (k i : Nat) :
    ∀ l : List Nat, (l.drop k).getD i 0 = l.getD (k + i) 0 := by
  induction k with
  | zero => intro l; simp
  | succ j ih =>
    intro l
    cases l with
    | nil => simp
    | cons b t =>
      simp only [List.drop_succ_cons]
      rw [ih t]
      have hj : j + 1 + i = (j + i) + 1 := by omega
      rw [hj, List.getD_cons_succ]

theorem Message.decode_eq_some {l : List Nat} {m : Message}
    (h : Message.decode l = some m) :
    240 ≤ l.length ∧ (l.getD 0 0 = 1 ∨ l.getD 0 0 = 2) ∧
      ∃ opts, DhcpOptions.decode (l.drop 240) = some opts ∧
        m = msgOf l opts := by
  unfold Message.decode at h
  cases hOc : Opcode.decode l with
  | none => simp [hOc] at h
  | some pOc => ?_
  obtain ⟨oc, l1⟩ := pOc
  simp only [hOc] at h
  cases h1 : read_u8 l1 with
  | none => simp [h1] at h
  | some p1 => ?_
  obtain ⟨htype, l2⟩ := p1
  simp only [h1] at h
  cases h2 : read_u8 l2 with
  | none => simp [h2] at h
  | some p2 => ?_
  obtain ⟨hlen, l3⟩ := p2
  simp only [h2] at h
  cases h3 : read_u8 l3 with
  | none => simp [h3] at h
  | some p3 => ?_
  obtain ⟨hops, l4⟩ := p3
  simp only [h3] at h
  cases h4 : read_u32 l4 with
  | none => simp [h4] at h
  | some p4 => ?_
  obtain ⟨xid, l5⟩ := p4
  simp only [h4] at h
  cases h5 : read_u16 l5 with
  | none => simp [h5] at h
  | some p5 => ?_
  obtain ⟨secs, l6⟩ := p5
  simp only [h5] at h
  cases h6 : read_u16 l6 with
  | none => simp [h6] at h
  | some p6 => ?_
  obtain ⟨flags, l7⟩ := p6
  simp only [h6] at h
  cases h7 : read_u32 l7 with
  | none => simp [h7] at h
  | some p7 => ?_
  obtain ⟨ciaddr, l8⟩ := p7
  simp only [h7] at h
  cases h8 : read_u32 l8 with
  | none => simp [h8] at h
  | some p8 => ?_
  obtain ⟨yiaddr, l9⟩ := p8
  simp only [h8] at h
  cases h9 : read_u32 l9 with
  | none => simp [h9] at h
  | some p9 => ?_
  obtain ⟨siaddr, l10⟩ := p9
  simp only [h9] at h
  cases h10 : read_u32 l10 with
  | none => simp [h10] at h
  | some p10 => ?_
  obtain ⟨giaddr, l11⟩ := p10
  simp only [h10] at h
  cases h11 : readN 16 l11 with
  | none => simp [h11] at h
  | some p11 => ?_
  obtain ⟨chaddr, l12⟩ := p11
  simp only [h11] at h
  cases h12 : read_const_string 64 l12 with
  | none => simp [h12] at h
  | some p12 => ?_
  obtain ⟨sname, l13⟩ := p12
  simp only [h12] at h
  cases h13 : read_const_string 128 l13 with
  | none => simp [h13] at h
  | some p13 => ?_
  obtain ⟨file, l14⟩ := p13
  simp only [h13] at h
  cases h14 : readN 4 l14 with
  | none => simp [h14] at h
  | some p14 => ?_
  obtain ⟨magic, l15⟩ := p14
  simp only [h14] at h
  cases hO : DhcpOptions.decode l15 with
  | none => simp [hO] at h
  | some opts => ?_
  simp only [hO] at h
  simp only [Option.some.injEq] at h
  obtain ⟨len0, hop, hocv, e0⟩ := Opcode.decode_some_inv hOc
  subst e0
  obtain ⟨len1, v1, e1⟩ := read_u8_eq_some h1
  subst e1
  obtain ⟨len2, v2, e2⟩ := read_u8_eq_some h2
  subst e2
  obtain ⟨len3, v3, e3⟩ := read_u8_eq_some h3
  subst e3
  obtain ⟨len4, v4, e4⟩ := read_u32_eq_some h4
  subst e4
  obtain ⟨len5, v5, e5⟩ := read_u16_eq_some h5
  subst e5
  obtain ⟨len6, v6, e6⟩ := read_u16_eq_some h6
  subst e6
  obtain ⟨len7, v7, e7⟩ := read_u32_eq_some h7
  subst e7
  obtain ⟨len8, v8, e8⟩ := read_u32_eq_some h8
  subst e8
  obtain ⟨len9, v9, e9⟩ := read_u32_eq_some h9
  subst e9
  obtain ⟨len10, v10, e10⟩ := read_u32_eq_some h10
  subst e10
  obtain ⟨len11, v11, e11⟩ := readN_eq_some h11
  subst e11
  obtain ⟨len12, v12, e12⟩ := read_const_string_eq_some h12
  subst e12
  obtain ⟨len13, v13, e13⟩ := read_const_string_eq_some h13
  subst e13
  obtain ⟨len14, v14, e14⟩ := readN_eq_some h14
  subst e14
  simp only [List.drop_drop, List.length_drop, getD_drop] at len14 v1 v2 v3 v4 v5 v6 v7 v8 v9 v10 v11 v12 v13 v14 hO
  norm_num at len14 v1 v2 v3 v4 v5 v6 v7 v8 v9 v10 v11 v12 v13 v14 hO
  refine ⟨by omega, hop, opts, hO, ?_⟩
  rw [← h]
  subst hocv v1 v2 v3 v4 v5 v6 v7 v8 v9 v10 v11 v12 v13 v14
  simp [msgOf]

theorem Message.decode_of {l : List Nat} {opts : DhcpOptions}
    (hl : 240 ≤ l.length) (hop : l.getD 0 0 = 1 ∨ l.getD 0 0 = 2)
    (hopts : DhcpOptions.decode (l.drop 240) = some opts) :
    Message.decode l = some (msgOf l opts) := by
  have e0 : Opcode.decode l =
      some (if l.getD 0 0 = 1 then .BootRequest else .BootReply,
        l.drop 1) :=
    Opcode.decode_some_of (by omega) hop
  have h1 : read_u8 (l.drop 1) = some (l.getD 1 0, l.drop 2) := by
    rw [read_u8_of_le (by rw [List.length_drop]; omega)]
    simp [getD_drop, List.drop_drop]
  have h2 : read_u8 (l.drop 2) = some (l.getD 2 0, l.drop 3) := by
    rw [read_u8_of_le (by rw [List.length_drop]; omega)]
    simp [getD_drop, List.drop_drop]
  have h3 : read_u8 (l.drop 3) = some (l.getD 3 0, l.drop 4) := by
    rw [read_u8_of_le (by rw [List.length_drop]; omega)]
    simp [getD_drop, List.drop_drop]
  have h4 : read_u32 (l.drop 4) =
      some (be32 (l.getD 4 0) (l.getD 5 0) (l.getD 6 0) (l.getD 7 0),
        l.drop 8) := by
    rw [read_u32_of_le (by rw [List.length_drop]; omega)]
    simp [getD_drop, List.drop_drop]
  have h5 : read_u16 (l.drop 8) =
      some (be16 (l.getD 8 0) (l.getD 9 0), l.drop 10) := by
    rw [read_u16_of_le (by rw [List.length_drop]; omega)]
    simp [getD_drop, List.drop_drop]
  have h6 : read_u16 (l.drop 10) =
      some (be16 (l.getD 10 0) (l.getD 11 0), l.drop 12) := by
    rw [read_u16_of_le (by rw [List.length_drop]; omega)]
    simp [getD_drop, List.drop_drop]
  have h7 : read_u32 (l.drop 12) =
      some (be32 (l.getD 12 0) (l.getD 13 0) (l.getD 14 0) (l.getD 15 0),
        l.drop 16) := by
    rw [read_u32_of_le (by rw [List.length_drop]; omega)]
    simp [getD_drop, List.drop_drop]
  have h8 : read_u32 (l.drop 16) =
      some (be32 (l.getD 16 0) (l.getD 17 0) (l.getD 18 0) (l.getD 19 0),
        l.drop 20) := by
    rw [read_u32_of_le (by rw [List.length_drop]; omega)]
    simp [getD_drop, List.drop_drop]
  have h9 : read_u32 (l.drop 20) =
      some (be32 (l.getD 20 0) (l.getD 21 0) (l.getD 22 0) (l.getD 23 0),
        l.drop 24) := by
    rw [read_u32_of_le (by rw [List.length_drop]; omega)]
    simp [getD_drop, List.drop_drop]
  have h10 : read_u32 (l.drop 24) =
      some (be32 (l.getD 24 0) (l.getD 25 0) (l.getD 26 0) (l.getD 27 0),
        l.drop 28) := by
    rw [read_u32_of_le (by rw [List.length_drop]; omega)]
    simp [getD_drop, List.drop_drop]
  have h11 : readN 16 (l.drop 28) =
      some ((l.drop 28).take 16, l.drop 44) := by
    rw [readN_of_le (by rw [List.length_drop]; omega)]
    simp [List.drop_drop]
  have h12 : read_const_string 64 (l.drop 44) =
      some (strOf ((l.drop 44).take 64), l.drop 108) := by
    rw [read_const_string_of_le (by rw [List.length_drop]; omega)]
    simp [List.drop_drop]
  have h13 : read_const_string 128 (l.drop 108) =
      some (strOf ((l.drop 108).take 128), l.drop 236) := by
    rw [read_const_string_of_le (by rw [List.length_drop]; omega)]
    simp [List.drop_drop]
  have h14 : readN 4 (l.drop 236) =
      some ((l.drop 236).take 4, l.drop 240) := by
    rw [readN_of_le (by rw [List.length_drop]; omega)]
    simp [List.drop_drop]
  unfold Message.decode
  simp only [e0, h1, h2, h3, h4, h5, h6, h7, h8, h9, h10, h11, h12, h13,
    h14, hopts, Option.some.injEq]
  simp [msgOf]


/- ## String codec lemmas -/

theorem takeUntilNul_length_le (bs : List Nat) :
    (takeUntilNul bs).length ≤ bs.length := by
  induction bs with
  | nil => simp [takeUntilNul]
  | cons b t ih =>
    unfold takeUntilNul
    split
    · simp
    · simpa using ih

theorem takeUntilNul_ne_zero (bs : List Nat) :
    ∀ x ∈ takeUntilNul bs, x ≠ 0 := by
  induction bs with
  | nil => simp [takeUntilNul]
  | cons b t ih =>
    unfold takeUntilNul
    split
    · simp
    next hb =>
      intro x hx
      rcases List.mem_cons.mp hx with h | h
      · subst h; exact hb
      · exact ih x h

theorem takeUntilNul_append_of {s : List Nat} (hs : ∀ x ∈ s, x ≠ 0)
    (t : List Nat) : takeUntilNul (s ++ t) = s ++ takeUntilNul t := by
  induction s with
  | nil => simp
  | cons b r ih =>
    have hb : b ≠ 0 := hs b (by simp)
    simp only [List.cons_append]
    rw [show takeUntilNul (b :: (r ++ t)) =
        if b = 0 then [] else b :: takeUntilNul (r ++ t) from rfl]
    rw [if_neg hb, ih (fun x hx => hs x (by simp [hx]))]

theorem takeUntilNul_replicate_zero (k : Nat) :
    takeUntilNul (List.replicate k 0) = [] := by
  cases k with
  | zero => simp [takeUntilNul]
  | succ j => simp [List.replicate, takeUntilNul]

theorem strOf_replicate_zero (k : Nat) :
    strOf (List.replicate k 0) = none := by
  unfold strOf
  rw [takeUntilNul_replicate_zero]
  simp

theorem strOf_wf (bs : List Nat) {w : Nat} (hw : bs.length ≤ w) :
    strFieldWF (strOf bs) w := by
  unfold strOf
  split
  · simp [strFieldWF]
  next h =>
    refine ⟨h, takeUntilNul_ne_zero bs, ?_⟩
    exact le_trans (takeUntilNul_length_le bs) hw

theorem write_fill_string_of_wf {os : Option (List Nat)} {w : Nat}
    (h : strFieldWF os w) :
    ∃ s, write_fill_string os w = some s ∧ s.length = w ∧ strOf s = os := by
  match os with
  | none =>
    refine ⟨List.replicate w 0, rfl, by simp, ?_⟩
    simp [strOf, takeUntilNul_replicate_zero]
  | some s =>
    obtain ⟨hne, hnz, hle⟩ := h
    refine ⟨s ++ List.replicate (w - s.length) 0, ?_, by simp; omega, ?_⟩
    · simp [write_fill_string, hle]
    · rw [strOf, takeUntilNul_append_of hnz, takeUntilNul_replicate_zero]
      simp [hne]

/- ## Options codec lemmas -/

theorem getD_lt_of_all {l : List Nat} (hb : ∀ x ∈ l, x < 256) :
    ∀ i, l.getD i 0 < 256 := by
  induction l with
  | nil => intro i; simp [List.getD_nil]
  | cons b t ih =>
    intro i
    cases i with
    | zero => simpa using hb b (by simp)
    | succ j =>
      rw [List.getD_cons_succ]
      exact ih (fun x hx => hb x (by simp [hx])) j

theorem decodeOptsF_wf :
    ∀ (f : Nat) (l : List Nat) (opts : DhcpOptions),
      (∀ x ∈ l, x < 256) → decodeOptsF f l = some opts → OptsWF opts := by
  intro f
  induction f with
  | zero =>
    intro l opts hb h
    cases l with
    | nil =>
      simp only [decodeOptsF, Option.some.injEq] at h
      subst h
      intro p hp
      simp at hp
    | cons c r => simp [decodeOptsF] at h
  | succ g ih =>
    intro l opts hb h
    cases l with
    | nil =>
      simp only [decodeOptsF, Option.some.injEq] at h
      subst h
      intro p hp
      simp at hp
    | cons c r =>
      unfold decodeOptsF at h
      by_cases hc0 : c = 0
      · rw [if_pos hc0] at h
        exact ih r opts (fun x hx => hb x (by simp [hx])) h
      · rw [if_neg hc0] at h
        by_cases hc255 : c = 255
        · rw [if_pos hc255] at h
          simp only [Option.some.injEq] at h
          subst h
          intro p hp
          simp at hp
        · rw [if_neg hc255] at h
          cases h8 : read_u8 r with
          | none => simp [h8] at h
          | some p8 => ?_
          obtain ⟨n, r1⟩ := p8
          simp only [h8] at h
          cases hN : readN n r1 with
          | none => simp [hN] at h
          | some pN => ?_
          obtain ⟨v, r2⟩ := pN
          simp only [hN] at h
          cases hrec : decodeOptsF g r2 with
          | none => simp [hrec] at h
          | some rest => ?_
          simp only [hrec, Option.some.injEq] at h
          subst h
          obtain ⟨hr1len, hnv, hr1⟩ := read_u8_eq_some h8
          obtain ⟨hnlen, hv, hr2⟩ := readN_eq_some hN
          have hrb : ∀ x ∈ r, x < 256 := fun x hx => hb x (by simp [hx])
          have hr2b : ∀ x ∈ r2, x < 256 := by
            intro x hx
            rw [hr2, hr1] at hx
            exact hrb x (List.drop_subset 1 r (List.drop_subset n _ hx))
          have hrest := ih r2 rest hr2b hrec
          intro p hp
          rcases List.mem_cons.mp hp with hp | hp
          · subst hp
            refine ⟨hc0, hc255, hb c (by simp), ?_⟩
            have hn256 : n < 256 := by rw [hnv]; exact getD_lt_of_all hrb 0
            have hvn : v.length = n := by rw [hv]; simp [hnlen]
            show v.length ≤ 255
            omega
          · exact hrest p hp

theorem encodeOptsEntries_of_wf {opts : DhcpOptions} (hw : OptsWF opts) :
    encodeOptsEntries opts = some (optsEntriesBytes opts) := by
  induction opts with
  | nil => rfl
  | cons p rest ih =>
    obtain ⟨c, v⟩ := p
    obtain ⟨_, _, _, hlen⟩ := hw (c, v) (by simp)
    have hrest := ih (fun q hq => hw q (by simp [hq]))
    simp [encodeOptsEntries, hlen, hrest, optsEntriesBytes, optsEntryBytes]

theorem readN_append (v X : List Nat) : readN v.length (v ++ X) = some (v, X) := by
  rw [readN_of_le (by simp)]
  simp

theorem decodeOptsF_entries_append_end :
    ∀ (opts : DhcpOptions) (f : Nat), OptsWF opts →
      (optsEntriesBytes opts).length + 1 ≤ f →
      decodeOptsF f (optsEntriesBytes opts ++ [255]) = some opts := by
  intro opts
  induction opts with
  | nil =>
    intro f _ hf
    cases f with
    | zero => simp at hf
    | succ g => simp [optsEntriesBytes, decodeOptsF]
  | cons p rest ih =>
    intro f hw hf
    obtain ⟨c, v⟩ := p
    obtain ⟨hc0, hc255, hclt, hvlen⟩ := hw (c, v) (by simp)
    have hcmod : c % 256 = c := Nat.mod_eq_of_lt hclt
    simp only [optsEntriesBytes, optsEntryBytes, List.length_append,
      List.length_cons] at hf ⊢
    cases f with
    | zero => omega
    | succ g => ?_
    simp only [List.cons_append, List.append_assoc]
    unfold decodeOptsF
    rw [hcmod, if_neg hc0, if_neg hc255]
    simp only [read_u8, readN_append,
      ih g (fun q hq => hw q (by simp [hq])) (by omega),
      Option.some.injEq]

theorem DhcpOptions.encode_then_decode {opts : DhcpOptions} (hw : OptsWF opts) :
    ∃ ob, DhcpOptions.encode opts = some ob ∧
      DhcpOptions.decode ob = some opts := by
  cases opts with
  | nil => exact ⟨[], rfl, rfl⟩
  | cons p rest =>
    refine ⟨optsEntriesBytes (p :: rest) ++ [255], ?_, ?_⟩
    · simp [DhcpOptions.encode, encodeOptsEntries_of_wf hw]
    · unfold DhcpOptions.decode
      exact decodeOptsF_entries_append_end (p :: rest) _ hw (by simp)


/- ## Projection lemmas for msgOf and headerBytes -/

theorem msgOf_opcode (l : List Nat) (opts : DhcpOptions) :
    (msgOf l opts).opcode = if l.getD 0 0 = 1 then Opcode.BootRequest else Opcode.BootReply := rfl

theorem msgOf_htype (l : List Nat) (opts : DhcpOptions) :
    (msgOf l opts).htype = l.getD 1 0 := rfl

theorem msgOf_hlen (l : List Nat) (opts : DhcpOptions) :
    (msgOf l opts).hlen = l.getD 2 0 := rfl

theorem msgOf_hops (l : List Nat) (opts : DhcpOptions) :
    (msgOf l opts).hops = l.getD 3 0 := rfl

theorem msgOf_xid (l : List Nat) (opts : DhcpOptions) :
    (msgOf l opts).xid = be32 (l.getD 4 0) (l.getD 5 0) (l.getD 6 0) (l.getD 7 0) := rfl

theorem msgOf_secs (l : List Nat) (opts : DhcpOptions) :
    (msgOf l opts).secs = be16 (l.getD 8 0) (l.getD 9 0) := rfl

theorem msgOf_flags (l : List Nat) (opts : DhcpOptions) :
    (msgOf l opts).flags = be16 (l.getD 10 0) (l.getD 11 0) := rfl

theorem msgOf_ciaddr (l : List Nat) (opts : DhcpOptions) :
    (msgOf l opts).ciaddr = be32 (l.getD 12 0) (l.getD 13 0) (l.getD 14 0) (l.getD 15 0) := rfl

theorem msgOf_yiaddr (l : List Nat) (opts : DhcpOptions) :
    (msgOf l opts).yiaddr = be32 (l.getD 16 0) (l.getD 17 0) (l.getD 18 0) (l.getD 19 0) := rfl

theorem msgOf_siaddr (l : List Nat) (opts : DhcpOptions) :
    (msgOf l opts).siaddr = be32 (l.getD 20 0) (l.getD 21 0) (l.getD 22 0) (l.getD 23 0) := rfl

theorem msgOf_giaddr (l : List Nat) (opts : DhcpOptions) :
    (msgOf l opts).giaddr = be32 (l.getD 24 0) (l.getD 25 0) (l.getD 26 0) (l.getD 27 0) := rfl

theorem msgOf_chaddr (l : List Nat) (opts : DhcpOptions) :
    (msgOf l opts).chaddr = (l.drop 28).take 16 := rfl

theorem msgOf_sname (l : List Nat) (opts : DhcpOptions) :
    (msgOf l opts).sname = strOf ((l.drop 44).take 64) := rfl

theorem msgOf_file (l : List Nat) (opts : DhcpOptions) :
    (msgOf l opts).file = strOf ((l.drop 108).take 128) := rfl

theorem msgOf_magic (l : List Nat) (opts : DhcpOptions) :
    (msgOf l opts).magic = (l.drop 236).take 4 := rfl

theorem msgOf_opts (l : List Nat) (opts : DhcpOptions) :
    (msgOf l opts).opts = opts := rfl

theorem headerBytes_getD_0 (m : Message) :
    (headerBytes m).getD 0 0 = m.opcode.toU8 := rfl

theorem headerBytes_getD_1 (m : Message) :
    (headerBytes m).getD 1 0 = m.htype % 256 := rfl

theorem headerBytes_getD_2 (m : Message) :
    (headerBytes m).getD 2 0 = m.hlen % 256 := rfl

theorem headerBytes_getD_3 (m : Message) :
    (headerBytes m).getD 3 0 = m.hops % 256 := rfl

theorem headerBytes_getD_4 (m : Message) :
    (headerBytes m).getD 4 0 = m.xid / 16777216 % 256 := rfl

theorem headerBytes_getD_5 (m : Message) :
    (headerBytes m).getD 5 0 = m.xid / 65536 % 256 := rfl

theorem headerBytes_getD_6 (m : Message) :
    (headerBytes m).getD 6 0 = m.xid / 256 % 256 := rfl

theorem headerBytes_getD_7 (m : Message) :
    (headerBytes m).getD 7 0 = m.xid % 256 := rfl

theorem headerBytes_getD_8 (m : Message) :
    (headerBytes m).getD 8 0 = m.secs / 256 % 256 := rfl

theorem headerBytes_getD_9 (m : Message) :
    (headerBytes m).getD 9 0 = m.secs % 256 := rfl

theorem headerBytes_getD_10 (m : Message) :
    (headerBytes m).getD 10 0 = m.flags / 256 % 256 := rfl

theorem headerBytes_getD_11 (m : Message) :
    (headerBytes m).getD 11 0 = m.flags % 256 := rfl

theorem headerBytes_getD_12 (m : Message) :
    (headerBytes m).getD 12 0 = m.ciaddr / 16777216 % 256 := rfl

theorem headerBytes_getD_13 (m : Message) :
    (headerBytes m).getD 13 0 = m.ciaddr / 65536 % 256 := rfl

theorem headerBytes_getD_14 (m : Message) :
    (headerBytes m).getD 14 0 = m.ciaddr / 256 % 256 := rfl

theorem headerBytes_getD_15 (m : Message) :
    (headerBytes m).getD 15 0 = m.ciaddr % 256 := rfl

theorem headerBytes_getD_16 (m : Message) :
    (headerBytes m).getD 16 0 = m.yiaddr / 16777216 % 256 := rfl

theorem headerBytes_getD_17 (m : Message) :
    (headerBytes m).getD 17 0 = m.yiaddr / 65536 % 256 := rfl

theorem headerBytes_getD_18 (m : Message) :
    (headerBytes m).getD 18 0 = m.yiaddr / 256 % 256 := rfl

theorem headerBytes_getD_19 (m : Message) :
    (headerBytes m).getD 19 0 = m.yiaddr % 256 := rfl

theorem headerBytes_getD_20 (m : Message) :
    (headerBytes m).getD 20 0 = m.siaddr / 16777216 % 256 := rfl

theorem headerBytes_getD_21 (m : Message) :
    (headerBytes m).getD 21 0 = m.siaddr / 65536 % 256 := rfl

theorem headerBytes_getD_22 (m : Message) :
    (headerBytes m).getD 22 0 = m.siaddr / 256 % 256 := rfl

theorem headerBytes_getD_23 (m : Message) :
    (headerBytes m).getD 23 0 = m.siaddr % 256 := rfl

theorem headerBytes_getD_24 (m : Message) :
    (headerBytes m).getD 24 0 = m.giaddr / 16777216 % 256 := rfl

theorem headerBytes_getD_25 (m : Message) :
    (headerBytes m).getD 25 0 = m.giaddr / 65536 % 256 := rfl

theorem headerBytes_getD_26 (m : Message) :
    (headerBytes m).getD 26 0 = m.giaddr / 256 % 256 := rfl

theorem headerBytes_getD_27 (m : Message) :
    (headerBytes m).getD 27 0 = m.giaddr % 256 := rfl

/- ## Well-formedness of decoded messages -/

theorem be16_lt {a b : Nat} (ha : a < 256) (hb : b < 256) :
    be16 a b < 65536 := by
  unfold be16
  omega

theorem be32_lt {a b c d : Nat} (ha : a < 256) (hb : b < 256)
    (hc : c < 256) (hd : d < 256) : be32 a b c d < 4294967296 := by
  unfold be32
  omega

theorem Message.decode_wf {l : List Nat} {m : Message}
    (hb : ∀ x ∈ l, x < 256) (h : Message.decode l = some m) : m.wf := by
  obtain ⟨hl, hop, opts, hopts, hm⟩ := Message.decode_eq_some h
  subst hm
  have hgd := getD_lt_of_all hb
  refine ⟨hgd 1, hgd 2, hgd 3,
    be32_lt (hgd 4) (hgd 5) (hgd 6) (hgd 7),
    be16_lt (hgd 8) (hgd 9), be16_lt (hgd 10) (hgd 11),
    be32_lt (hgd 12) (hgd 13) (hgd 14) (hgd 15),
    be32_lt (hgd 16) (hgd 17) (hgd 18) (hgd 19),
    be32_lt (hgd 20) (hgd 21) (hgd 22) (hgd 23),
    be32_lt (hgd 24) (hgd 25) (hgd 26) (hgd 27),
    ?_, ?_, ?_, ?_, ?_⟩
  · show ((l.drop 28).take 16).length = 16
    simp [List.length_take, List.length_drop]
    omega
  · exact strOf_wf _ (by simp [List.length_take])
  · exact strOf_wf _ (by simp [List.length_take])
  · show ((l.drop 236).take 4).length = 4
    simp [List.length_take, List.length_drop]
    omega
  · show OptsWF opts
    unfold DhcpOptions.decode at hopts
    exact decodeOptsF_wf _ _ _
      (fun x hx => hb x (List.drop_subset 240 l hx)) hopts

theorem Message.ext_fields {a b : Message}
    (h1 : a.opcode = b.opcode) (h2 : a.htype = b.htype)
    (h3 : a.hlen = b.hlen) (h4 : a.hops = b.hops) (h5 : a.xid = b.xid)
    (h6 : a.secs = b.secs) (h7 : a.flags = b.flags)
    (h8 : a.ciaddr = b.ciaddr) (h9 : a.yiaddr = b.yiaddr)
    (h10 : a.siaddr = b.siaddr) (h11 : a.giaddr = b.giaddr)
    (h12 : a.chaddr = b.chaddr) (h13 : a.sname = b.sname)
    (h14 : a.file = b.file) (h15 : a.magic = b.magic)
    (h16 : a.opts = b.opts) : a = b := by
  cases a
  cases b
  simp_all

/- ## Encode facts and the encode-then-decode round trip -/

theorem headerBytes_length (m : Message) : (headerBytes m).length = 28 := by
  simp [headerBytes, write_u8, write_u16, write_u32]

theorem Message.encode_eq_some {m : Message} {sn fl ob : List Nat}
    (hsn : write_fill_string m.sname 64 = some sn)
    (hfl : write_fill_string m.file 128 = some fl)
    (hob : DhcpOptions.encode m.opts = some ob) :
    Message.encode m =
      some (headerBytes m ++
        (m.chaddr ++ (sn ++ (fl ++ (m.magic ++ ob))))) := by
  unfold Message.encode
  simp only [hsn, hfl, hob, headerBytes]
  simp [List.append_assoc]

theorem Message.encode_decode {m : Message} (hw : m.wf) :
    ∃ out, Message.encode m = some out ∧ Message.decode out = some m := by
  obtain ⟨hht, hhl, hho, hxid, hsecs, hflags, hci, hyi, hsi, hgi, hch,
    hsnW, hflW, hmag, hop⟩ := hw
  obtain ⟨sn, hsnE, hsnLen, hsnStr⟩ := write_fill_string_of_wf hsnW
  obtain ⟨fl, hflE, hflLen, hflStr⟩ := write_fill_string_of_wf hflW
  obtain ⟨ob, hobE, hobD⟩ := DhcpOptions.encode_then_decode hop
  refine ⟨headerBytes m ++ (m.chaddr ++ (sn ++ (fl ++ (m.magic ++ ob)))),
    Message.encode_eq_some hsnE hflE hobE, ?_⟩
  have hlen : (headerBytes m ++
      (m.chaddr ++ (sn ++ (fl ++ (m.magic ++ ob))))).length =
      240 + ob.length := by
    simp [headerBytes_length, hch, hsnLen, hflLen, hmag]
    omega
  have hgdi : ∀ i, i < 28 →
      (headerBytes m ++
        (m.chaddr ++ (sn ++ (fl ++ (m.magic ++ ob))))).getD i 0 =
      (headerBytes m).getD i 0 := by
    intro i hi
    exact List.getD_append _ _ 0 i (by rw [headerBytes_length]; omega)
  have d28 : (headerBytes m ++
      (m.chaddr ++ (sn ++ (fl ++ (m.magic ++ ob))))).drop 28 =
      m.chaddr ++ (sn ++ (fl ++ (m.magic ++ ob))) :=
    List.drop_left' (headerBytes_length m)
  have d44 : (headerBytes m ++
      (m.chaddr ++ (sn ++ (fl ++ (m.magic ++ ob))))).drop 44 =
      sn ++ (fl ++ (m.magic ++ ob)) := by
    have h2 := List.drop_drop 16 28 (headerBytes m ++
      (m.chaddr ++ (sn ++ (fl ++ (m.magic ++ ob)))))
    rw [d28, List.drop_left' hch] at h2
    norm_num at h2
    exact h2.symm
  have d108 : (headerBytes m ++
      (m.chaddr ++ (sn ++ (fl ++ (m.magic ++ ob))))).drop 108 =
      fl ++ (m.magic ++ ob) := by
    have h2 := List.drop_drop 64 44 (headerBytes m ++
      (m.chaddr ++ (sn ++ (fl ++ (m.magic ++ ob)))))
    rw [d44, List.drop_left' hsnLen] at h2
    norm_num at h2
    exact h2.symm
  have d236 : (headerBytes m ++
      (m.chaddr ++ (sn ++ (fl ++ (m.magic ++ ob))))).drop 236 =
      m.magic ++ ob := by
    have h2 := List.drop_drop 128 108 (headerBytes m ++
      (m.chaddr ++ (sn ++ (fl ++ (m.magic ++ ob)))))
    rw [d108, List.drop_left' hflLen] at h2
    norm_num at h2
    exact h2.symm
  have d240 : (headerBytes m ++
      (m.chaddr ++ (sn ++ (fl ++ (m.magic ++ ob))))).drop 240 = ob := by
    have h2 := List.drop_drop 4 236 (headerBytes m ++
      (m.chaddr ++ (sn ++ (fl ++ (m.magic ++ ob)))))
    rw [d236, List.drop_left' hmag] at h2
    norm_num at h2
    exact h2.symm
  have hg0 : (headerBytes m ++ (m.chaddr ++ (sn ++ (fl ++ (m.magic ++ ob))))).getD 0 0 = m.opcode.toU8 := by
    rw [hgdi 0 (by omega), headerBytes_getD_0]
  have hdec := @Message.decode_of (headerBytes m ++ (m.chaddr ++ (sn ++ (fl ++ (m.magic ++ ob))))) m.opts
    (by omega) (by rw [hg0]; cases hc : m.opcode <;> simp [Opcode.toU8])
    (by rw [d240]; exact hobD)
  have hfields : msgOf (headerBytes m ++ (m.chaddr ++ (sn ++ (fl ++ (m.magic ++ ob))))) m.opts = m := by
    apply Message.ext_fields
    · rw [msgOf_opcode, hg0]
      cases hc : m.opcode <;> simp [Opcode.toU8]
    · rw [msgOf_htype, hgdi 1 (by omega), headerBytes_getD_1]
      exact Nat.mod_eq_of_lt hht
    · rw [msgOf_hlen, hgdi 2 (by omega), headerBytes_getD_2]
      exact Nat.mod_eq_of_lt hhl
    · rw [msgOf_hops, hgdi 3 (by omega), headerBytes_getD_3]
      exact Nat.mod_eq_of_lt hho
    · rw [msgOf_xid, hgdi 4 (by omega), hgdi 5 (by omega),
        hgdi 6 (by omega), hgdi 7 (by omega), headerBytes_getD_4,
        headerBytes_getD_5, headerBytes_getD_6, headerBytes_getD_7]
      unfold be32
      omega
    · rw [msgOf_secs, hgdi 8 (by omega), hgdi 9 (by omega),
        headerBytes_getD_8, headerBytes_getD_9]
      unfold be16
      omega
    · rw [msgOf_flags, hgdi 10 (by omega), hgdi 11 (by omega),
        headerBytes_getD_10, headerBytes_getD_11]
      unfold be16
      omega
    · rw [msgOf_ciaddr, hgdi 12 (by omega), hgdi 13 (by omega),
        hgdi 14 (by omega), hgdi 15 (by omega), headerBytes_getD_12,
        headerBytes_getD_13, headerBytes_getD_14, headerBytes_getD_15]
      unfold be32
      omega
    · rw [msgOf_yiaddr, hgdi 16 (by omega), hgdi 17 (by omega),
        hgdi 18 (by omega), hgdi 19 (by omega), headerBytes_getD_16,
        headerBytes_getD_17, headerBytes_getD_18, headerBytes_getD_19]
      unfold be32
      omega
    · rw [msgOf_siaddr, hgdi 20 (by omega), hgdi 21 (by omega),
        hgdi 22 (by omega), hgdi 23 (by omega), headerBytes_getD_20,
        headerBytes_getD_21, headerBytes_getD_22, headerBytes_getD_23]
      unfold be32
      omega
    · rw [msgOf_giaddr, hgdi 24 (by omega), hgdi 25 (by omega),
        hgdi 26 (by omega), hgdi 27 (by omega), headerBytes_getD_24,
        headerBytes_getD_25, headerBytes_getD_26, headerBytes_getD_27]
      unfold be32
      omega
    · rw [msgOf_chaddr, d28]
      exact List.take_left' hch
    · rw [msgOf_sname, d44, List.take_left' hsnLen, hsnStr]
    · rw [msgOf_file, d108, List.take_left' hflLen, hflStr]
    · rw [msgOf_magic, d236]
      exact List.take_left' hmag
    · rw [msgOf_opts]
  rw [hdec, hfields]


/- ## Auxiliary inversion lemmas for the claims -/

theorem encodeOptsEntries_some_eq :
    ∀ {opts : DhcpOptions} {body : List Nat},
      encodeOptsEntries opts = some body → body = optsEntriesBytes opts := by
  intro opts
  induction opts with
  | nil =>
    intro body h
    simp only [encodeOptsEntries, Option.some.injEq] at h
    simp [← h, optsEntriesBytes]
  | cons p rest ih =>
    intro body h
    obtain ⟨c, v⟩ := p
    unfold encodeOptsEntries at h
    split at h
    · cases hE : encodeOptsEntries rest with
      | none => simp [hE] at h
      | some t =>
        simp only [hE, Option.some.injEq] at h
        rw [← h, ih hE]
        simp [optsEntriesBytes, optsEntryBytes]
    · simp at h

theorem write_fill_string_length {os : Option (List Nat)} {w : Nat}
    {s : List Nat} (h : write_fill_string os w = some s) : s.length = w := by
  cases os with
  | none =>
    simp only [write_fill_string, Option.some.injEq] at h
    simp [← h]
  | some s0 =>
    simp only [write_fill_string] at h
    split at h
    next hle =>
      simp only [Option.some.injEq] at h
      rw [← h]
      simp only [List.length_append, List.length_replicate]
      omega
    next => simp at h

theorem readN_none {n : Nat} {l : List Nat} (h : l.length < n) :
    readN n l = none := by
  cases hN : readN n l with
  | none => rfl
  | some p =>
    obtain ⟨bs, r⟩ := p
    have := (readN_eq_some hN).1
    omega

/- ## The claims -/

/-- C1: for every byte sequence `b` that `Message::decode` accepts,
producing message `m`, encoding `m` succeeds and decoding the result
succeeds and yields a Message equal to `m` (semantic round-trip
stability, with no requirement that the re-encoding equal `b`). -/
theorem claim_C1_roundtrip_stability {b : List Nat} {m : Message}
    (hb : ∀ x ∈ b, x < 256) (h : Message.decode b = some m) :
    ∃ out, Message.encode m = some out ∧ Message.decode out = some m :=
  Message.encode_decode (Message.decode_wf hb h)

theorem claim_C1_witness :
    (∀ x ∈ bootreqBytes, x < 256) ∧
      ∃ out, Message.encode msgBR = some out ∧
        Message.decode out = some msgBR :=
  ⟨by decide, @claim_C1_roundtrip_stability bootreqBytes msgBR (by decide) (by decide)⟩

/-- C2 counterexample: the claim says encoding a Message with an empty
options collection still appends the END byte (255) after the magic
cookie; but the options-empty `dhcp_bootreq` message encodes to the
240-byte vector, which contains no 255 byte at all (this is exactly what
the `decode_bootreq` test in the source asserts). -/
theorem claim_C2_counterexample :
    Message.encode msgBR = some bootreqBytes ∧ msgBR.opts = [] ∧
      255 ∉ bootreqBytes := by
  refine ⟨by decide, rfl, by decide⟩

/-- C2 (amended): `DhcpOptions::encode` writes the entries in stored
order, each as code byte, length byte, value bytes, and when the
collection is nonempty follows the last entry with exactly one END
marker byte (255) and no trailing PAD bytes; a Message whose options
collection is empty encodes no options bytes at all (in particular no
END byte). -/
theorem claim_C2_amended_encode_shape {opts : DhcpOptions}
    {out : List Nat} (h : DhcpOptions.encode opts = some out) :
    (opts = [] ∧ out = []) ∨
      (opts ≠ [] ∧ out = optsEntriesBytes opts ++ [255]) := by
  cases opts with
  | nil =>
    left
    simp only [DhcpOptions.encode, Option.some.injEq] at h
    exact ⟨rfl, h.symm⟩
  | cons p rest =>
    right
    refine ⟨by simp, ?_⟩
    unfold DhcpOptions.encode at h
    cases hE : encodeOptsEntries (p :: rest) with
    | none => simp [hE] at h
    | some body =>
      simp only [hE, Option.some.injEq] at h
      rw [← h, encodeOptsEntries_some_eq hE]

theorem claim_C2_amended_witness :
    (([(53, [2])] : DhcpOptions) = [] ∧ ([53, 1, 2, 255] : List Nat) = []) ∨
      (([(53, [2])] : DhcpOptions) ≠ [] ∧
        ([53, 1, 2, 255] : List Nat) =
          optsEntriesBytes [(53, [2])] ++ [255]) :=
  claim_C2_amended_encode_shape (by decide)

/-- C3: exhaustion of the options region before any END byte at a code
position is not an error: the options scan accepts the empty region and
a region that is a complete record with no END marker; and any decodable
buffer cut to exactly 240 bytes (nothing after the magic cookie) still
decodes, to a Message with an empty options collection. -/
theorem claim_C3_end_optional :
    (∀ f : Nat, decodeOptsF f [] = some []) ∧
      (∀ c : Nat, ∀ v : List Nat, c ≠ 0 → c ≠ 255 →
        DhcpOptions.decode (c :: v.length :: v) = some [(c, v)]) ∧
      (∀ b : List Nat, ∀ m : Message, Message.decode b = some m →
        ∃ m2, Message.decode (b.take 240) = some m2 ∧ m2.opts = []) := by
  refine ⟨?_, ?_, ?_⟩
  · intro f
    cases f <;> rfl
  · intro c v hc0 hc255
    show decodeOptsF (c :: v.length :: v).length (c :: v.length :: v) =
      some [(c, v)]
    simp only [List.length_cons]
    unfold decodeOptsF
    rw [if_neg hc0, if_neg hc255]
    simp only [read_u8]
    rw [readN_of_le (Nat.le_refl _)]
    simp only [List.take_length, List.drop_length]
    have hnil : decodeOptsF (v.length + 1) [] = some [] := by
      cases v <;> rfl
    rw [hnil]
  · intro b m h
    obtain ⟨hl, hop, opts, _, _⟩ := Message.decode_eq_some h
    have hlen240 : (b.take 240).length = 240 := by
      simp [List.length_take]
      omega
    have hg0 : (b.take 240).getD 0 0 = b.getD 0 0 := by
      conv_rhs => rw [← List.take_append_drop 240 b]
      rw [List.getD_append _ _ 0 0 (by omega)]
    have hd240 : (b.take 240).drop 240 = [] :=
      List.drop_eq_nil_of_le (by omega)
    have hdec := @Message.decode_of (b.take 240) []
      (by omega) (by rw [hg0]; exact hop) (by rw [hd240]; rfl)
    exact ⟨msgOf (b.take 240) [], hdec, rfl⟩

theorem claim_C3_witness :
    ∃ m2, Message.decode (bootreqBytes.take 240) = some m2 ∧
      m2.opts = [] :=
  claim_C3_end_optional.2.2 bootreqBytes msgBR (by decide)

/-- C4: the fixed header is read in strict documented order with the
documented interpretations: any buffer beginning 1,2,3,4,5,6,7,8 that
decodes at all yields opcode BootRequest (value 1), htype 2, hlen 3,
hops 4 and xid 0x05060708 (big-endian four-byte read). -/
theorem claim_C4_header_field_order {rest : List Nat} {m : Message}
    (h : Message.decode (1 :: 2 :: 3 :: 4 :: 5 :: 6 :: 7 :: 8 :: rest) =
      some m) :
    m.opcode = .BootRequest ∧ m.htype = 2 ∧ m.hlen = 3 ∧ m.hops = 4 ∧
      m.xid = 0x05060708 := by
  obtain ⟨_, _, opts, _, hm⟩ := Message.decode_eq_some h
  subst hm
  refine ⟨rfl, rfl, rfl, rfl, ?_⟩
  rw [msgOf_xid]
  norm_num [List.getD, be32]

theorem claim_C4_witness :
    msgBR.opcode = .BootRequest ∧ msgBR.htype = 2 ∧ msgBR.hlen = 3 ∧
      msgBR.hops = 4 ∧ msgBR.xid = 0x05060708 :=
  @claim_C4_header_field_order bootreqTail msgBR (by decide)

/-- C5: the magic-cookie bytes are never validated: decode stores the
four bytes at the cookie position verbatim whatever their value, the
success of decode does not depend on that value, and encode writes the
stored four bytes back at the same position. -/
theorem claim_C5_magic_verbatim :
    (∀ pre m4 rest : List Nat, ∀ m : Message, pre.length = 236 →
      m4.length = 4 → Message.decode (pre ++ m4 ++ rest) = some m →
      m.magic = m4) ∧
    (∀ pre m4 m4' rest : List Nat, pre.length = 236 → m4.length = 4 →
      m4'.length = 4 →
      ((∃ m, Message.decode (pre ++ m4 ++ rest) = some m) ↔
        (∃ m, Message.decode (pre ++ m4' ++ rest) = some m))) ∧
    (∀ m : Message, ∀ out : List Nat, Message.encode m = some out →
      ∃ pre post, out = pre ++ m.magic ++ post ∧
        pre.length = 220 + m.chaddr.length) := by
  have key : ∀ pre m4 m4' rest : List Nat, pre.length = 236 →
      m4.length = 4 → m4'.length = 4 →
      (∃ m, Message.decode (pre ++ m4 ++ rest) = some m) →
      ∃ m, Message.decode (pre ++ m4' ++ rest) = some m := by
    intro pre m4 m4' rest hpre hm4 hm4' hs
    obtain ⟨m, hm⟩ := hs
    obtain ⟨hl, hop, opts, hopts, _⟩ := Message.decode_eq_some hm
    have hlen' : 240 ≤ (pre ++ m4' ++ rest).length := by
      have hx : (pre ++ m4' ++ rest).length =
          pre.length + (m4'.length + rest.length) := by
        simp
      have hy : (pre ++ m4 ++ rest).length =
          pre.length + (m4.length + rest.length) := by
        simp
      omega
    have hg : ∀ q : List Nat, (pre ++ q ++ rest).getD 0 0 = pre.getD 0 0 := by
      intro q
      rw [List.getD_append _ _ 0 0 (by simp only [List.length_append]; omega)]
      exact List.getD_append _ _ 0 0 (by omega)
    have hd : ∀ q : List Nat, q.length = 4 →
        (pre ++ q ++ rest).drop 240 = rest := by
      intro q hq
      rw [List.append_assoc]
      have h1 : (pre ++ (q ++ rest)).drop 236 = q ++ rest :=
        List.drop_left' hpre
      have h2 := List.drop_drop 4 236 (pre ++ (q ++ rest))
      rw [h1, List.drop_left' hq] at h2
      norm_num at h2
      exact h2.symm
    have hopts' : DhcpOptions.decode rest = some opts := by
      rw [← hd m4 hm4]
      exact hopts
    refine ⟨msgOf (pre ++ m4' ++ rest) opts,
      @Message.decode_of (pre ++ m4' ++ rest) opts hlen' ?_ ?_⟩
    · rw [hg m4']
      rw [hg m4] at hop
      exact hop
    · rw [hd m4' hm4']
      exact hopts'
  refine ⟨?_, ?_, ?_⟩
  · intro pre m4 rest m hpre hm4 h
    obtain ⟨_, _, opts, _, hm⟩ := Message.decode_eq_some h
    subst hm
    rw [msgOf_magic, List.append_assoc]
    have h1 : (pre ++ (m4 ++ rest)).drop 236 = m4 ++ rest :=
      List.drop_left' hpre
    rw [h1]
    exact List.take_left' hm4
  · intro pre m4 m4' rest hpre hm4 hm4'
    exact ⟨key pre m4 m4' rest hpre hm4 hm4',
      key pre m4' m4 rest hpre hm4' hm4⟩
  · intro m out h
    unfold Message.encode at h
    cases hsn : write_fill_string m.sname 64 with
    | none => simp [hsn] at h
    | some sn => ?_
    simp only [hsn] at h
    cases hfl : write_fill_string m.file 128 with
    | none => simp [hfl] at h
    | some fl => ?_
    simp only [hfl] at h
    cases hob : DhcpOptions.encode m.opts with
    | none => simp [hob] at h
    | some ob => ?_
    simp only [hob, Option.some.injEq] at h
    refine ⟨[m.opcode.toU8] ++ write_u8 m.htype ++ write_u8 m.hlen
      ++ write_u8 m.hops ++ write_u32 m.xid ++ write_u16 m.secs
      ++ write_u16 m.flags ++ write_u32 m.ciaddr ++ write_u32 m.yiaddr
      ++ write_u32 m.siaddr ++ write_u32 m.giaddr ++ m.chaddr
      ++ sn ++ fl, ob, ?_, ?_⟩
    · rw [← h]
    · simp only [List.length_append, write_u8, write_u16, write_u32,
        List.length_cons, List.length_nil,
        write_fill_string_length hsn, write_fill_string_length hfl]
      omega

theorem claim_C5_witness :
    msgBR.magic = [99, 130, 83, 99] :=
  claim_C5_magic_verbatim.1 (bootreqBytes.take 236) [99, 130, 83, 99] []
    msgBR (by decide) (by decide) (by decide)

/-- C6: decode is all-or-nothing and truncation is fatal: a buffer
shorter than the 240 bytes of fixed header plus magic cookie always
fails to decode (no partial Message exists, decode being `Option`
valued), and an options region that declares a value length larger than
the bytes remaining fails the options decode. -/
theorem claim_C6_truncation_fatal :
    (∀ b : List Nat, b.length < 240 → Message.decode b = none) ∧
      (∀ c n : Nat, ∀ v : List Nat, c ≠ 0 → c ≠ 255 → v.length < n →
        DhcpOptions.decode (c :: n :: v) = none) := by
  constructor
  · intro b hb
    cases hd : Message.decode b with
    | none => rfl
    | some m =>
      have := (Message.decode_eq_some hd).1
      omega
  · intro c n v hc0 hc255 hlt
    show decodeOptsF (c :: n :: v).length (c :: n :: v) = none
    simp only [List.length_cons]
    unfold decodeOptsF
    rw [if_neg hc0, if_neg hc255]
    simp only [read_u8, readN_none hlt]

theorem claim_C6_witness :
    Message.decode (List.replicate 10 0) = none ∧
      DhcpOptions.decode [53, 4, 1, 2] = none :=
  ⟨claim_C6_truncation_fatal.1 (List.replicate 10 0) (by decide),
   claim_C6_truncation_fatal.2 53 4 [1, 2] (by decide) (by decide)
     (by decide)⟩

/-- C7: the opcode field is a closed two-value enumeration: any first
byte other than 1 or 2 makes the whole Message decode fail, while first
bytes 1 and 2 always decode (to BootRequest and BootReply). -/
theorem claim_C7_opcode_closed :
    (∀ b0 : Nat, ∀ r : List Nat, b0 ≠ 1 → b0 ≠ 2 →
      Message.decode (b0 :: r) = none) ∧
      (∀ r : List Nat, Opcode.decode (1 :: r) = some (.BootRequest, r)) ∧
      (∀ r : List Nat, Opcode.decode (2 :: r) = some (.BootReply, r)) := by
  refine ⟨?_, ?_, ?_⟩
  · intro b0 r h1 h2
    have hoc : Opcode.decode (b0 :: r) = none :=
      Opcode.decode_none (by simpa using h1) (by simpa using h2)
    unfold Message.decode
    simp only [hoc]
  · intro r
    simp [Opcode.decode, read_u8]
  · intro r
    simp [Opcode.decode, read_u8]

theorem claim_C7_witness :
    Message.decode [3] = none ∧
      Opcode.decode [1] = some (.BootRequest, []) ∧
      Opcode.decode [2] = some (.BootReply, []) :=
  ⟨claim_C7_opcode_closed.1 3 [] (by decide) (by decide),
   claim_C7_opcode_closed.2.1 [], claim_C7_opcode_closed.2.2 []⟩

/-- C8: an all-zero 64-byte sname region decodes to an absent sname
(`none`, not an empty string), likewise an all-zero 128-byte file
region; and a Message with an absent sname (file) encodes exactly 64
(128) zero bytes at that region. -/
theorem claim_C8_absent_strings :
    (∀ pre post : List Nat, ∀ m : Message, pre.length = 44 →
      Message.decode (pre ++ List.replicate 64 0 ++ post) = some m →
      m.sname = none) ∧
    (∀ pre post : List Nat, ∀ m : Message, pre.length = 108 →
      Message.decode (pre ++ List.replicate 128 0 ++ post) = some m →
      m.file = none) ∧
    (∀ m : Message, ∀ out : List Nat, Message.encode m = some out →
      m.chaddr.length = 16 → m.sname = none →
      (out.drop 44).take 64 = List.replicate 64 0) ∧
    (∀ m : Message, ∀ out : List Nat, Message.encode m = some out →
      m.chaddr.length = 16 → m.file = none →
      (out.drop 108).take 128 = List.replicate 128 0) := by
  refine ⟨?_, ?_, ?_, ?_⟩
  · intro pre post m hpre h
    obtain ⟨_, _, opts, _, hm⟩ := Message.decode_eq_some h
    subst hm
    rw [msgOf_sname, List.append_assoc, List.drop_left' hpre,
      List.take_left' (by simp)]
    exact strOf_replicate_zero 64
  · intro pre post m hpre h
    obtain ⟨_, _, opts, _, hm⟩ := Message.decode_eq_some h
    subst hm
    rw [msgOf_file, List.append_assoc, List.drop_left' hpre,
      List.take_left' (by simp)]
    exact strOf_replicate_zero 128
  · intro m out h hch hsn0
    have h0 := h
    unfold Message.encode at h
    cases hfl : write_fill_string m.file 128 with
    | none => rw [show write_fill_string m.sname 64 =
        some (List.replicate 64 0) by rw [hsn0]; rfl] at h; simp [hfl] at h
    | some fl => ?_
    cases hob : DhcpOptions.encode m.opts with
    | none => rw [show write_fill_string m.sname 64 =
        some (List.replicate 64 0) by rw [hsn0]; rfl] at h
              simp [hfl, hob] at h
    | some ob => ?_
    have hsn : write_fill_string m.sname 64 =
        some (List.replicate 64 0) := by
      rw [hsn0]
      rfl
    have hE := Message.encode_eq_some hsn hfl hob
    rw [h0] at hE
    simp only [Option.some.injEq] at hE
    subst hE
    have d28 : (headerBytes m ++ (m.chaddr ++ (List.replicate 64 0 ++
        (fl ++ (m.magic ++ ob))))).drop 28 =
        m.chaddr ++ (List.replicate 64 0 ++ (fl ++ (m.magic ++ ob))) :=
      List.drop_left' (headerBytes_length m)
    have d44 : (headerBytes m ++ (m.chaddr ++ (List.replicate 64 0 ++
        (fl ++ (m.magic ++ ob))))).drop 44 =
        List.replicate 64 0 ++ (fl ++ (m.magic ++ ob)) := by
      have h2 := List.drop_drop 16 28 (headerBytes m ++ (m.chaddr ++
        (List.replicate 64 0 ++ (fl ++ (m.magic ++ ob)))))
      rw [d28, List.drop_left' hch] at h2
      norm_num at h2
      exact h2.symm
    rw [d44, List.take_left' (by simp)]
  · intro m out h hch hfl0
    have h0 := h
    unfold Message.encode at h
    cases hsn : write_fill_string m.sname 64 with
    | none => simp [hsn] at h
    | some sn => ?_
    cases hob : DhcpOptions.encode m.opts with
    | none => rw [show write_fill_string m.file 128 =
        some (List.replicate 128 0) by rw [hfl0]; rfl] at h
              simp [hsn, hob] at h
    | some ob => ?_
    have hfl : write_fill_string m.file 128 =
        some (List.replicate 128 0) := by
      rw [hfl0]
      rfl
    have hE := Message.encode_eq_some hsn hfl hob
    rw [h0] at hE
    simp only [Option.some.injEq] at hE
    subst hE
    have d28 : (headerBytes m ++ (m.chaddr ++ (sn ++
        (List.replicate 128 0 ++ (m.magic ++ ob))))).drop 28 =
        m.chaddr ++ (sn ++ (List.replicate 128 0 ++ (m.magic ++ ob))) :=
      List.drop_left' (headerBytes_length m)
    have d44 : (headerBytes m ++ (m.chaddr ++ (sn ++
        (List.replicate 128 0 ++ (m.magic ++ ob))))).drop 44 =
        sn ++ (List.replicate 128 0 ++ (m.magic ++ ob)) := by
      have h2 := List.drop_drop 16 28 (headerBytes m ++ (m.chaddr ++
        (sn ++ (List.replicate 128 0 ++ (m.magic ++ ob)))))
      rw [d28, List.drop_left' hch] at h2
      norm_num at h2
      exact h2.symm
    have d108 : (headerBytes m ++ (m.chaddr ++ (sn ++
        (List.replicate 128 0 ++ (m.magic ++ ob))))).drop 108 =
        List.replicate 128 0 ++ (m.magic ++ ob) := by
      have h2 := List.drop_drop 64 44 (headerBytes m ++ (m.chaddr ++
        (sn ++ (List.replicate 128 0 ++ (m.magic ++ ob)))))
      rw [d44, List.drop_left' (write_fill_string_length hsn)] at h2
      norm_num at h2
      exact h2.symm
    rw [d108, List.take_left' (by simp)]

theorem claim_C8_witness :
    msgZ.sname = none ∧
      (((1 :: List.replicate 239 0 : List Nat)).drop 44).take 64 =
        List.replicate 64 0 :=
  ⟨claim_C8_absent_strings.1 (1 :: List.replicate 43 0)
      (List.replicate 132 0) msgZ (by decide) (by decide),
   claim_C8_absent_strings.2.2.1 msgZ (1 :: List.replicate 239 0)
      (by decide) (by decide) (by decide)⟩

/-- C9: the only mutation the model exposes is through `opts_mut`, and
writing a new options collection through it replaces `opts` and leaves
every one of the fifteen header fields unchanged. -/
theorem claim_C9_opts_mut_frame (m : Message) (o : DhcpOptions) :
    (m.opts_mut o).opcode = m.opcode ∧ (m.opts_mut o).htype = m.htype ∧
      (m.opts_mut o).hlen = m.hlen ∧ (m.opts_mut o).hops = m.hops ∧
      (m.opts_mut o).xid = m.xid ∧ (m.opts_mut o).secs = m.secs ∧
      (m.opts_mut o).flags = m.flags ∧
      (m.opts_mut o).ciaddr = m.ciaddr ∧
      (m.opts_mut o).yiaddr = m.yiaddr ∧
      (m.opts_mut o).siaddr = m.siaddr ∧
      (m.opts_mut o).giaddr = m.giaddr ∧
      (m.opts_mut o).chaddr = m.chaddr ∧
      (m.opts_mut o).sname = m.sname ∧ (m.opts_mut o).file = m.file ∧
      (m.opts_mut o).magic = m.magic ∧ (m.opts_mut o).opts = o :=
  ⟨rfl, rfl, rfl, rfl, rfl, rfl, rfl, rfl, rfl, rfl, rfl, rfl, rfl, rfl,
   rfl, rfl⟩

/-- C10 counterexample: there is no 244-byte BOOTREQUEST vector in the
test suite; the `dhcp_bootreq` vector (embedded here verbatim as
`bootreqBytes`) has exactly 240 bytes. -/
theorem claim_C10_counterexample :
    bootreqBytes.length = 240 ∧ ¬bootreqBytes.length = 244 := by decide

/-- C10 (amended): for the canonical 240-byte BOOTREQUEST vector of the
test suite (zero-padded sname/file after their null terminators, no
options bytes after the magic cookie), the round trip is byte-identical:
encode of its decoded Message reproduces the vector exactly. -/
theorem claim_C10_byte_identical :
    Message.decode bootreqBytes = some msgBR ∧
      Message.encode msgBR = some bootreqBytes :=
  ⟨by decide, by decide⟩

end Dhcproto
